import Mathlib

/-!
# Zoom-Setter: a shallow embedding of `popup.js`

`popup.js` is the whole program: a browser-extension popup that shows the active
tab's zoom, stores a zoom per hostname in `browser.storage.local`, and listens
to `browser.tabs.onUpdated`.

The embedding keeps one Lean definition per JavaScript function, under the same
name.  An `async` function becomes a state transformer over `World`, the part of
the browser the script can observe or change; every `await`ed browser call is
logged in `World.calls`, so that "no storage lookup" and "no `tabs.setZoom`
call" are statements about that log.  Handlers run to completion one at a time.

Numbers are JavaScript numbers restricted to the finite ones: a finite binary64
value is a rational, and `jsMul` rounds the exact product back to binary64.
`NaN` and the infinities are not represented (`tabs.getZoom` never yields them).

The one platform function that is taken as a parameter is the URL parser behind
`new URL(url).hostname`, written `urlHostname` below.
-/

namespace ZoomSetter

/-! ## JavaScript numbers -/

/-- Nearest integer to a rational, a tie going to the even neighbour
(IEEE 754 `roundTiesToEven`). -/
def roundTiesToEven (q : ℚ) : ℤ :=
  let f := ⌊q⌋
  let r := q - f
  if r < 1 / 2 then f
  else if 1 / 2 < r then f + 1
  else if f % 2 = 0 then f else f + 1

/-- Number of binary digits of `n`, by halving (`fuel` bounds the recursion;
`fuel = n` always suffices). -/
def bitLength : ℕ → ℕ → ℕ
  | 0, _ => 0
  | fuel + 1, n => if n = 0 then 0 else bitLength fuel (n / 2) + 1

/-- The integer `e` with `2 ^ e ≤ |q| < 2 ^ (e + 1)`, for `q ≠ 0`. -/
def ilog2 (q : ℚ) : ℤ :=
  let e0 : ℤ := (bitLength q.num.natAbs q.num.natAbs : ℤ) - (bitLength q.den q.den : ℤ)
  if (2 : ℚ) ^ e0 ≤ |q| then e0 else e0 - 1

/-- Exponent of the binary64 binade that holds `q`; subnormals share the
exponent `-1022`. -/
def binaryExponent (q : ℚ) : ℤ := max (ilog2 q) (-1022)

/-- The binary64 value nearest to the rational `q`: 53 significant bits, ties to
even.  Overflow to `Infinity` (`|q| ≥ 2 ^ 1024`) is not represented. -/
def roundToDouble (q : ℚ) : ℚ :=
  let ulp : ℚ := (2 : ℚ) ^ (binaryExponent q - 52)
  roundTiesToEven (q / ulp) * ulp

/-- JavaScript `a * b` on finite numbers: the exact product, rounded to binary64. -/
def jsMul (a b : ℚ) : ℚ := roundToDouble (a * b)

/-- `parseFloat(x)` applied to a number: `x` is converted to its shortest
round-tripping decimal string and parsed back, which returns `x`. -/
def parseFloat (x : ℚ) : ℚ := x

/-- Candidates `(n, s)` of `Number::toString` with `k` decimal digits:
`10 ^ (k - 1) ≤ s < 10 ^ k` and `s × 10 ^ (n - k)` rounds to the binary64 value `x`. -/
def digitCandidates (x : ℚ) (k : ℕ) : List (ℕ × ℕ) :=
  let n0 := (Nat.repr ⌊x⌋.toNat).length
  ([n0, n0 + 1].flatMap fun n =>
    let t := x / (10 : ℚ) ^ ((n : ℤ) - k)
    [(n, ⌊t⌋.toNat), (n, ⌈t⌉.toNat)]).filter fun c =>
      decide (10 ^ (k - 1) ≤ c.2 ∧ c.2 < 10 ^ k ∧
        roundToDouble (c.2 * (10 : ℚ) ^ ((c.1 : ℤ) - k)) = x)

/-- Of several candidates, the one whose value is closest to `x`; of two equally
close, the one with even `s`. -/
def closestCandidate (x : ℚ) (k : ℕ) : List (ℕ × ℕ) → Option (ℕ × ℕ)
  | [] => none
  | c :: cs =>
    match closestCandidate x k cs with
    | none => some c
    | some d =>
      let dc := |c.2 * (10 : ℚ) ^ ((c.1 : ℤ) - k) - x|
      let dd := |d.2 * (10 : ℚ) ^ ((d.1 : ℤ) - k) - x|
      if dc < dd ∨ (dc = dd ∧ c.2 % 2 = 0) then some c else some d

/-- The triple `(k, n, s)` of `Number::toString` with `k` as small as possible,
searched upwards from `k` (17 digits identify any binary64 value). -/
def shortestDigits (x : ℚ) : ℕ → ℕ → ℕ × ℕ × ℕ
  | 0, k => (k, 0, 0)
  | fuel + 1, k =>
    match closestCandidate x k (digitCandidates x k) with
    | some c => (k, c.1, c.2)
    | none => shortestDigits x fuel (k + 1)

/-- `Number::toString(x)` for `x ≥ 10 ^ 21`, where it is always in exponential
form: the digits of `s`, a point after the first when there are several,
then `e+` and `n - 1`. -/
def numberToStringLarge (x : ℚ) : String :=
  let (k, n, s) := shortestDigits x 17 1
  let digits := Nat.repr s
  let mantissa := if k = 1 then digits else digits.take 1 ++ "." ++ digits.drop 1
  mantissa ++ "e+" ++ Nat.repr (n - 1)

/-- `Number.prototype.toFixed(0)` on a non-negative number: from `10 ^ 21` on
the result is `Number::toString(x)`; below, the digits of the integer `n` for
which `n - x` is closest to zero, the larger `n` when there are two. -/
def toFixed0NonNeg (x : ℚ) : String :=
  if (10 : ℚ) ^ 21 ≤ x then numberToStringLarge x
  else
    let n := if x - ⌊x⌋ < 1 / 2 then ⌊x⌋ else ⌊x⌋ + 1
    Nat.repr n.toNat

/-- `x.toFixed(0)`: a negative `x` is printed as `-` followed by the result for `-x`. -/
def toFixed0 (x : ℚ) : String :=
  if x < 0 then "-" ++ toFixed0NonNeg (-x) else toFixed0NonNeg x

/-! ## The browser as seen by the script -/

/-- The values `previousURL` and the listener's `currentURL` range over. -/
inductive JSValue
  | undefined
  | null
  | string (s : String)
deriving DecidableEq, Repr

/-- A `tabs.Tab` as far as the script reads it: `id` and `url`. -/
structure Tab where
  id : ℕ
  url : String
deriving DecidableEq, Repr

/-- The browser calls the script awaits. -/
inductive ApiCall
  | tabsQuery
  | tabsGetZoom (tabId : ℕ)
  | tabsSetZoom (tabId : ℕ) (zoomFactor : ℚ)
  | storageGet (key : String)
  | storageSet (key : String) (value : ℚ)
  | windowClose
deriving DecidableEq, Repr

/-- What the script can observe or change.  `activeTab` is the active tab of
the current window (what `tabs.query` is asked for), `zoomOf` the zoom factor
of each tab id, `storage` the contents of `browser.storage.local`, `title` and
`tag` the `textContent` of the two elements, `previousURL` the script's global,
`calls` the browser calls made so far, oldest first. -/
structure World where
  activeTab : Tab
  zoomOf : ℕ → ℚ
  storage : String → Option ℚ
  title : String
  tag : String
  previousURL : JSValue
  windowClosed : Bool
  calls : List ApiCall

/-- An `async` function of the script. -/
abbrev Async (α : Type) := StateM World α

/-- Log one browser call. -/
def record (c : ApiCall) : Async Unit :=
  modify fun w => { w with calls := w.calls ++ [c] }

/-- `browser.tabs.query` asked for the active tab of the current window: the
answer is the list of that one tab. -/
def tabsQuery : Async (List Tab) := do
  record .tabsQuery
  return [(← get).activeTab]

/-- `browser.tabs.getZoom(id)`.  Like every browser call of the script, it is
taken to succeed: the script has no error handling. -/
def tabsGetZoom (id : ℕ) : Async ℚ := do
  record (.tabsGetZoom id)
  return (← get).zoomOf id

/-- `browser.tabs.setZoom(id, zoomFactor)`: the tab `id` takes the zoom factor. -/
def tabsSetZoom (id : ℕ) (zoomFactor : ℚ) : Async Unit := do
  record (.tabsSetZoom id zoomFactor)
  modify fun w => { w with zoomOf := fun i => if i = id then zoomFactor else w.zoomOf i }

/-- `browser.storage.local.get(key)`: an object with the one property `key`
when the key is stored, the empty object otherwise. -/
def storageLocalGet (key : String) : Async (List (String × ℚ)) := do
  record (.storageGet key)
  match (← get).storage key with
  | some value => return [(key, value)]
  | none => return []

/-- `browser.storage.local.set` of an object with the one property `key`. -/
def storageLocalSet (key : String) (value : ℚ) : Async Unit := do
  record (.storageSet key value)
  modify fun w => { w with storage := fun k => if k = key then some value else w.storage k }

/-- `window.close()`. -/
def windowClose : Async Unit := do
  record .windowClose
  modify fun w => { w with windowClosed := true }

/-! ## `popup.js` -/

/-- `setTitle`: `title.textContent = parseFloat(zoomLevel * 100).toFixed(0) + "%"`. -/
def setTitle (zoomLevel : ℚ) : Async Unit :=
  modify fun w => { w with title := toFixed0 (parseFloat (jsMul zoomLevel 100)) ++ "%" }

/-- `currentTab`: `tabList[0]` of the query for the active tab. -/
def currentTab : Async Tab := do
  let tabList ← tabsQuery
  return tabList.headD (← get).activeTab

/-- `currentURL`: `new URL(url).hostname` of the active tab. -/
def currentURL (urlHostname : String → String) : Async String := do
  let tab ← currentTab
  return urlHostname tab.url

/-- `getZoomLevel`: the zoom factor of the active tab. -/
def getZoomLevel : Async ℚ := do
  let tab ← currentTab
  tabsGetZoom tab.id

/-- `saveNewZoom`: store the active tab's zoom under its hostname, then close
the popup. -/
def saveNewZoom (urlHostname : String → String) : Async Unit := do
  let zoomLevel ← getZoomLevel
  let storageKey ← currentURL urlHostname
  storageLocalSet storageKey zoomLevel
  windowClose

/-- `getZoomLevelForCurrentURL`: the stored zoom of the active tab's hostname,
`null` (here `none`) when the object read from storage has no key. -/
def getZoomLevelForCurrentURL (urlHostname : String → String) : Async (Option ℚ) := do
  let storageKey ← currentURL urlHostname
  let savedZoomObject ← storageLocalGet storageKey
  let empty := decide (savedZoomObject.length ≤ 0)
  if empty then return none
  let zoomLevelForURL := savedZoomObject.lookup (← currentURL urlHostname)
  return zoomLevelForURL

/-- `setZoom`: apply the stored zoom of the active tab's hostname to the active
tab and show it; `!zoomLevelForURL` holds for `null` and for `0`. -/
def setZoom (urlHostname : String → String) : Async Unit := do
  let tab ← currentTab
  let zoomLevelForURL ← getZoomLevelForCurrentURL urlHostname
  match zoomLevelForURL with
  | none => return
  | some zoom =>
    if zoom = 0 then return
    tabsSetZoom tab.id zoom
    setTitle zoom

/-- `window.onload`. -/
def windowOnload (urlHostname : String → String) : Async Unit := do
  let currentZoomLevel ← getZoomLevel
  setTitle currentZoomLevel
  let zoomLevelForURL ← getZoomLevelForCurrentURL urlHostname
  if zoomLevelForURL = some currentZoomLevel then
    modify fun w => { w with tag := "This urls current default zoom" }
  else
    modify fun w => { w with tag := "Mark as this urls new default" }

/-- `saveButton.onclick`. -/
def saveButtonOnclick (urlHostname : String → String) : Async Unit :=
  saveNewZoom urlHostname

/-- The `changeInfo` argument of a `tabs.onUpdated` listener as far as the
script reads it: `url` is present when the tab's URL changed, and it is a
string. -/
structure ChangeInfo where
  url : Option String
deriving DecidableEq, Repr

/-- The property read `changeInfo.url.hostname`.  `changeInfo.url` is a string;
a property read on a string primitive is answered by `String.prototype`, which
has no `hostname`, so the read gives `undefined` whatever the string is.
(`currentURL` parses its string with `new URL(url)` first; the listener does not.) -/
def stringHostname (_url : String) : JSValue := .undefined

/-- `a ?? b`: `b` when `a` is `null` or `undefined`, else `a`. -/
def nullish (a b : JSValue) : JSValue :=
  match a with
  | .undefined => b
  | .null => b
  | .string s => .string s

/-- The `browser.tabs.onUpdated` listener.  `if (changeInfo.url)` holds for a
present, non-empty string. -/
def tabsOnUpdated (urlHostname : String → String) (_tabId : ℕ) (changeInfo : ChangeInfo) :
    Async Unit := do
  match changeInfo.url with
  | none => return
  | some url =>
    if url = "" then return
    let currentURL := stringHostname url
    modify fun w => { w with previousURL := nullish w.previousURL currentURL }
    if (← get).previousURL ≠ currentURL then setZoom urlHostname

/-! ## Running the script -/

/-- The world after running `m` from `w`. -/
def after (m : Async α) (w : World) : World := (m.run w).2

/-- The value `m` returns when run from `w`. -/
def resultOf (m : Async α) (w : World) : α := (m.run w).1

/-- The world `w` with the calls `cs` appended to its log. -/
def World.logged (w : World) (cs : List ApiCall) : World := { w with calls := w.calls ++ cs }

/-- The hostnames that have an entry in storage. -/
def storedHostnames (w : World) : Set String := { k | (w.storage k).isSome }

/-- What can happen while the popup is open: the page finishes loading, the
save button is clicked, the browser reports a tab update, or the user or the
browser changes which tab is active and the zoom of tabs. -/
inductive Event
  | loaded
  | saveClicked
  | tabUpdated (tabId : ℕ) (changeInfo : ChangeInfo)
  | browserChanged (activeTab : Tab) (zoomOf : ℕ → ℚ)

/-- The handler the script registered for an event, run to completion. -/
def handle (urlHostname : String → String) (e : Event) (w : World) : World :=
  match e with
  | .loaded => after (windowOnload urlHostname) w
  | .saveClicked => after (saveButtonOnclick urlHostname) w
  | .tabUpdated tabId changeInfo => after (tabsOnUpdated urlHostname tabId changeInfo) w
  | .browserChanged activeTab zoomOf => { w with activeTab := activeTab, zoomOf := zoomOf }

/-- A sequence of events, handled in order. -/
def handleAll (urlHostname : String → String) (es : List Event) (w : World) : World :=
  es.foldl (fun w e => handle urlHostname e w) w

/-- The title text the specification describes for a zoom factor `Z`: the
decimal integer `round(Z * 100)` followed by a percent sign.  The product is
the exact one; the script's own product is `jsMul Z 100`. -/
def specTitle (zoomFactor : ℚ) : String :=
  toString (round (zoomFactor * 100)) ++ "%"

/-- A URL parser for the examples: it knows the hostnames of four URLs. -/
def sampleHostname (url : String) : String :=
  if url = "https://a.example/" then "a.example"
  else if url = "https://b.example/page" then "b.example"
  else if url = "https://b.example/other" then "b.example"
  else if url = "https://c.example/" then "c.example"
  else ""

/-- A popup that has just started on tab 7 at `b.example`: zoom 1.5 is stored
for `b.example`, nothing for any other hostname, every tab is at zoom 1, and
`previousURL` is still `null`. -/
def sampleWorld : World where
  activeTab := ⟨7, "https://b.example/page"⟩
  zoomOf := fun _ => 1
  storage := fun k => if k = "b.example" then some (3 / 2) else none
  title := "100%"
  tag := ""
  previousURL := .null
  windowClosed := false
  calls := []

/-- The popup on tab 9 at `c.example`, for which nothing is stored, with
`a.example` remembered as the previous hostname. -/
def missWorld : World :=
  { sampleWorld with
    activeTab := ⟨9, "https://c.example/"⟩
    previousURL := .string "a.example" }

/-- The popup after it has somehow come to remember `a.example` as the previous
hostname (a value of the type its documentation gives `previousURL`). -/
def rememberingWorld : World := { sampleWorld with previousURL := .string "a.example" }

/-- The sample popup with every tab at zoom 1.5, the value stored for its
hostname. -/
def zoomedWorld : World := { sampleWorld with zoomOf := fun _ => 3 / 2 }

/-! ## What each function does to the world -/

theorem getZoomLevel_run (w : World) :
    getZoomLevel.run w =
      (w.zoomOf w.activeTab.id, w.logged [.tabsQuery, .tabsGetZoom w.activeTab.id]) := by
  simp [getZoomLevel, currentTab, tabsQuery, tabsGetZoom, record, World.logged,
    StateT.run, bind, StateT.bind, get, getThe, MonadStateOf.get, StateT.get, modify, modifyGet,
    MonadStateOf.modifyGet, StateT.modifyGet, pure, StateT.pure]

theorem getZoomLevelForCurrentURL_run_none (urlHostname : String → String) (w : World)
    (h : w.storage (urlHostname w.activeTab.url) = none) :
    (getZoomLevelForCurrentURL urlHostname).run w =
      (none, w.logged [.tabsQuery, .storageGet (urlHostname w.activeTab.url)]) := by
  simp [getZoomLevelForCurrentURL, currentURL, currentTab, tabsQuery, storageLocalGet, record,
    World.logged, StateT.run, bind, StateT.bind, get, getThe, MonadStateOf.get, StateT.get,
    modify, modifyGet, MonadStateOf.modifyGet, StateT.modifyGet, pure, StateT.pure, h]

theorem getZoomLevelForCurrentURL_run_some (urlHostname : String → String) (w : World) (z : ℚ)
    (h : w.storage (urlHostname w.activeTab.url) = some z) :
    (getZoomLevelForCurrentURL urlHostname).run w =
      (some z,
        w.logged [.tabsQuery, .storageGet (urlHostname w.activeTab.url), .tabsQuery]) := by
  simp [getZoomLevelForCurrentURL, currentURL, currentTab, tabsQuery, storageLocalGet, record,
    World.logged, StateT.run, bind, StateT.bind, get, getThe, MonadStateOf.get, StateT.get,
    modify, modifyGet, MonadStateOf.modifyGet, StateT.modifyGet, pure, StateT.pure, h,
    List.lookup]

theorem run_bind {α β : Type} (m : Async α) (f : α → Async β) (w : World) :
    (m >>= f).run w = (f (m.run w).1).run (m.run w).2 := rfl

theorem run_pure {α : Type} (a : α) (w : World) : (pure a : Async α).run w = (a, w) := rfl

theorem currentTab_run (w : World) :
    currentTab.run w = (w.activeTab, w.logged [.tabsQuery]) := rfl

theorem setZoom_run_none (urlHostname : String → String) (w : World)
    (h : w.storage (urlHostname w.activeTab.url) = none) :
    after (setZoom urlHostname) w =
      w.logged [.tabsQuery, .tabsQuery, .storageGet (urlHostname w.activeTab.url)] := by
  have h2 := getZoomLevelForCurrentURL_run_none urlHostname (w.logged [.tabsQuery]) h
  simp only [after, setZoom, run_bind, currentTab_run, h2]
  simp [World.logged, StateT.run, pure, StateT.pure]

theorem setZoom_run_some (urlHostname : String → String) (w : World) (z : ℚ)
    (h : w.storage (urlHostname w.activeTab.url) = some z) (hz : z ≠ 0) :
    after (setZoom urlHostname) w =
      { w with
        zoomOf := fun i => if i = w.activeTab.id then z else w.zoomOf i
        title := toFixed0 (parseFloat (jsMul z 100)) ++ "%"
        calls := w.calls ++ [.tabsQuery, .tabsQuery, .storageGet (urlHostname w.activeTab.url),
          .tabsQuery, .tabsSetZoom w.activeTab.id z] } := by
  have h2 := getZoomLevelForCurrentURL_run_some urlHostname (w.logged [.tabsQuery]) z h
  simp only [after, setZoom, run_bind, currentTab_run, h2]
  simp [hz, tabsSetZoom, setTitle, record, World.logged,
    StateT.run, bind, StateT.bind, get, getThe, MonadStateOf.get, StateT.get, modify, modifyGet,
    MonadStateOf.modifyGet, StateT.modifyGet, pure, StateT.pure]

theorem setZoom_run_zero (urlHostname : String → String) (w : World)
    (h : w.storage (urlHostname w.activeTab.url) = some 0) :
    after (setZoom urlHostname) w =
      w.logged [.tabsQuery, .tabsQuery, .storageGet (urlHostname w.activeTab.url),
        .tabsQuery] := by
  have h2 := getZoomLevelForCurrentURL_run_some urlHostname (w.logged [.tabsQuery]) 0 h
  simp only [after, setZoom, run_bind, currentTab_run, h2]
  simp [World.logged, StateT.run, pure, StateT.pure]

theorem windowOnload_run_none (urlHostname : String → String) (w : World)
    (h : w.storage (urlHostname w.activeTab.url) = none) :
    after (windowOnload urlHostname) w =
      { w with
        title := toFixed0 (parseFloat (jsMul (w.zoomOf w.activeTab.id) 100)) ++ "%"
        tag := "Mark as this urls new default"
        calls := w.calls ++ [.tabsQuery, .tabsGetZoom w.activeTab.id, .tabsQuery,
          .storageGet (urlHostname w.activeTab.url)] } := by
  have h2 := getZoomLevelForCurrentURL_run_none urlHostname
    { w.logged [.tabsQuery, .tabsGetZoom w.activeTab.id] with
      title := toFixed0 (parseFloat (jsMul (w.zoomOf w.activeTab.id) 100)) ++ "%" } h
  simp only [after, windowOnload, run_bind, getZoomLevel_run]
  simp only [setTitle, StateT.run, modify, modifyGet, MonadStateOf.modifyGet,
    StateT.modifyGet, pure] at h2 ⊢
  simp only [h2]
  simp [World.logged, modify, modifyGet, MonadStateOf.modifyGet, StateT.modifyGet]

theorem windowOnload_run_some (urlHostname : String → String) (w : World) (z : ℚ)
    (h : w.storage (urlHostname w.activeTab.url) = some z) :
    after (windowOnload urlHostname) w =
      { w with
        title := toFixed0 (parseFloat (jsMul (w.zoomOf w.activeTab.id) 100)) ++ "%"
        tag := if z = w.zoomOf w.activeTab.id then "This urls current default zoom"
          else "Mark as this urls new default"
        calls := w.calls ++ [.tabsQuery, .tabsGetZoom w.activeTab.id, .tabsQuery,
          .storageGet (urlHostname w.activeTab.url), .tabsQuery] } := by
  have h2 := getZoomLevelForCurrentURL_run_some urlHostname
    { w.logged [.tabsQuery, .tabsGetZoom w.activeTab.id] with
      title := toFixed0 (parseFloat (jsMul (w.zoomOf w.activeTab.id) 100)) ++ "%" } z h
  simp only [after, windowOnload, run_bind, getZoomLevel_run]
  simp only [setTitle, StateT.run, modify, modifyGet, MonadStateOf.modifyGet,
    StateT.modifyGet, pure] at h2 ⊢
  simp only [h2]
  by_cases hz : z = w.zoomOf w.activeTab.id <;>
  simp [World.logged, hz, modify, modifyGet, MonadStateOf.modifyGet, StateT.modifyGet]

theorem saveNewZoom_run (urlHostname : String → String) (w : World) :
    after (saveNewZoom urlHostname) w =
      { w with
        storage := fun k =>
          if k = urlHostname w.activeTab.url then some (w.zoomOf w.activeTab.id)
          else w.storage k
        windowClosed := true
        calls := w.calls ++ [.tabsQuery, .tabsGetZoom w.activeTab.id, .tabsQuery,
          .storageSet (urlHostname w.activeTab.url) (w.zoomOf w.activeTab.id),
          .windowClose] } := by
  simp [after, saveNewZoom, getZoomLevel, currentURL, currentTab, tabsQuery, tabsGetZoom,
    storageLocalSet, windowClose, record, StateT.run, bind, StateT.bind, get, getThe,
    MonadStateOf.get, StateT.get, modify, modifyGet, MonadStateOf.modifyGet, StateT.modifyGet,
    pure, StateT.pure]

theorem tabsOnUpdated_run_absent (urlHostname : String → String) (tabId : ℕ) (w : World) :
    after (tabsOnUpdated urlHostname tabId ⟨none⟩) w = w := rfl

theorem tabsOnUpdated_run_present (urlHostname : String → String) (tabId : ℕ) (url : String)
    (w : World) (hurl : url ≠ "") :
    after (tabsOnUpdated urlHostname tabId ⟨some url⟩) w =
      if nullish w.previousURL (stringHostname url) ≠ stringHostname url then
        after (setZoom urlHostname)
          { w with previousURL := nullish w.previousURL (stringHostname url) }
      else { w with previousURL := nullish w.previousURL (stringHostname url) } := by
  by_cases hp : nullish w.previousURL (stringHostname url) = stringHostname url <;>
  simp [after, tabsOnUpdated, hurl, hp, StateT.run, bind, StateT.bind, get, getThe,
    MonadStateOf.get, StateT.get, modify, modifyGet, MonadStateOf.modifyGet, StateT.modifyGet,
    pure, StateT.pure]

/-! ## Rounding -/

/-- With enough fuel, `bitLength` of a positive `n` is the `k` with
`2 ^ (k - 1) ≤ n < 2 ^ k`. -/
theorem bitLength_spec (fuel n : ℕ) (hfuel : n ≤ fuel) (hn : 0 < n) :
    0 < bitLength fuel n ∧ 2 ^ (bitLength fuel n - 1) ≤ n ∧ n < 2 ^ bitLength fuel n := by
  induction fuel generalizing n with
  | zero => omega
  | succ fuel ih =>
    unfold bitLength
    rw [if_neg (by omega)]
    by_cases h2 : n / 2 = 0
    · have h1 : n = 1 := by omega
      subst h1
      have : bitLength fuel (1 / 2) = 0 := by
        cases fuel <;> simp [bitLength]
      simp [this]
    · obtain ⟨hpos, hlo, hhi⟩ := ih (n / 2) (by omega) (by omega)
      refine ⟨by omega, ?_, ?_⟩
      · have : bitLength fuel (n / 2) + 1 - 1 = (bitLength fuel (n / 2) - 1) + 1 := by omega
        rw [this, pow_succ]
        omega
      · rw [pow_succ]
        omega

/-- The exponent `ilog2 q` brackets a non-zero `q` between two powers of two. -/
theorem ilog2_spec (q : ℚ) (hq : q ≠ 0) :
    (2 : ℚ) ^ ilog2 q ≤ |q| ∧ |q| < (2 : ℚ) ^ (ilog2 q + 1) := by
  have hnum : 0 < q.num.natAbs := Int.natAbs_pos.mpr (Rat.num_ne_zero.mpr hq)
  have hden : 0 < q.den := q.den_pos
  obtain ⟨ha0, ha1, ha2⟩ := bitLength_spec q.num.natAbs q.num.natAbs le_rfl hnum
  obtain ⟨hb0, hb1, hb2⟩ := bitLength_spec q.den q.den le_rfl hden
  set a := bitLength q.num.natAbs q.num.natAbs
  set b := bitLength q.den q.den
  have habs : |q| = (q.num.natAbs : ℚ) / (q.den : ℚ) := by
    conv_lhs => rw [← Rat.num_div_den q]
    rw [abs_div, Nat.abs_cast, Nat.cast_natAbs, Int.cast_abs]
  have hdenpos : (0 : ℚ) < q.den := by exact_mod_cast hden
  have ha1q : (2 : ℚ) ^ (a - 1) ≤ (q.num.natAbs : ℚ) := by exact_mod_cast ha1
  have ha2q : (q.num.natAbs : ℚ) < (2 : ℚ) ^ a := by exact_mod_cast ha2
  have hb1q : (2 : ℚ) ^ (b - 1) ≤ (q.den : ℚ) := by exact_mod_cast hb1
  have hb2q : (q.den : ℚ) < (2 : ℚ) ^ b := by exact_mod_cast hb2
  have two_ne : (2 : ℚ) ≠ 0 := by norm_num
  -- upper bound: |q| < 2 ^ (a - b + 1)
  have hup : |q| < (2 : ℚ) ^ ((a : ℤ) - b + 1) := by
    rw [habs, div_lt_iff₀ hdenpos]
    have e : (2 : ℚ) ^ ((a : ℤ) - b + 1) = (2 : ℚ) ^ a / (2 : ℚ) ^ (b - 1) := by
      rw [← zpow_natCast, ← zpow_natCast, ← zpow_sub₀ two_ne]
      congr 1
      omega
    rw [e]
    calc (q.num.natAbs : ℚ) < (2 : ℚ) ^ a := ha2q
      _ = (2 : ℚ) ^ a / (2 : ℚ) ^ (b - 1) * (2 : ℚ) ^ (b - 1) := by field_simp
      _ ≤ (2 : ℚ) ^ a / (2 : ℚ) ^ (b - 1) * q.den := by
        apply mul_le_mul_of_nonneg_left hb1q
        positivity
  -- lower bound: 2 ^ (a - b - 1) < |q|
  have hlow : (2 : ℚ) ^ ((a : ℤ) - b - 1) < |q| := by
    rw [habs, lt_div_iff₀ hdenpos]
    have e : (2 : ℚ) ^ ((a : ℤ) - b - 1) = (2 : ℚ) ^ (a - 1) / (2 : ℚ) ^ b := by
      rw [← zpow_natCast, ← zpow_natCast, ← zpow_sub₀ two_ne]
      congr 1
      omega
    rw [e]
    calc (2 : ℚ) ^ (a - 1) / (2 : ℚ) ^ b * q.den
        < (2 : ℚ) ^ (a - 1) / (2 : ℚ) ^ b * (2 : ℚ) ^ b := by
          apply mul_lt_mul_of_pos_left hb2q
          positivity
      _ = (2 : ℚ) ^ (a - 1) := by field_simp
      _ ≤ q.num.natAbs := ha1q
  unfold ilog2
  simp only
  split_ifs with h
  · exact ⟨h, hup⟩
  · push_neg at h
    refine ⟨hlow.le, ?_⟩
    have : (a : ℤ) - b - 1 + 1 = (a : ℤ) - b := by ring
    rw [this]
    exact h

/-- A rounded integer is within one half of the rational it rounds. -/
theorem roundTiesToEven_near (q : ℚ) : |(roundTiesToEven q : ℚ) - q| ≤ 1 / 2 := by
  have h1 := Int.floor_le q
  have h2 := Int.lt_floor_add_one q
  unfold roundTiesToEven
  simp only
  split_ifs <;> rw [abs_le] <;> constructor <;> push_cast <;> linarith

/-- The value `roundToDouble q` is an integer multiple of the unit in the last
place of the binade of `q`, at most half a unit away from `q`; for a normal
`q` (`2 ^ (-1022) ≤ |q|`) that integer has at most 53 bits. -/
theorem roundToDouble_spec (q : ℚ) :
    let ulp : ℚ := (2 : ℚ) ^ (binaryExponent q - 52)
    roundToDouble q = roundTiesToEven (q / ulp) * ulp ∧
    |roundToDouble q - q| ≤ ulp / 2 ∧
    ((2 : ℚ) ^ (-1022 : ℤ) ≤ |q| → |(roundTiesToEven (q / ulp) : ℚ)| ≤ 2 ^ 53) := by
  intro ulp
  have hulp : 0 < ulp := zpow_pos (by norm_num) _
  refine ⟨rfl, ?_, ?_⟩
  · have h := roundTiesToEven_near (q / ulp)
    have e : roundToDouble q - q = ((roundTiesToEven (q / ulp) : ℚ) - q / ulp) * ulp := by
      show (roundTiesToEven (q / ulp) : ℚ) * ulp - q = _
      field_simp
    rw [e, abs_mul, abs_of_pos hulp]
    calc |(roundTiesToEven (q / ulp) : ℚ) - q / ulp| * ulp ≤ 1 / 2 * ulp :=
          mul_le_mul_of_nonneg_right h hulp.le
      _ = ulp / 2 := by ring
  · intro hnormal
    have hq : q ≠ 0 := by
      rintro rfl
      simp at hnormal
      have : (0:ℚ) < 2 ^ (-1022 : ℤ) := zpow_pos (by norm_num) _
      linarith
    obtain ⟨hlo, hhi⟩ := ilog2_spec q hq
    have hexp : binaryExponent q = ilog2 q := by
      unfold binaryExponent
      apply max_eq_left
      by_contra hlt
      push_neg at hlt
      have : (2 : ℚ) ^ (ilog2 q + 1) ≤ (2 : ℚ) ^ (-1022 : ℤ) :=
        zpow_le_zpow_right₀ (by norm_num) (by omega)
      linarith
    have hdiv : |q / ulp| < 2 ^ 53 := by
      rw [abs_div, abs_of_pos hulp, div_lt_iff₀ hulp]
      have : (2 : ℚ) ^ 53 * ulp = (2 : ℚ) ^ (ilog2 q + 1) := by
        show (2 : ℚ) ^ 53 * (2 : ℚ) ^ (binaryExponent q - 52) = _
        rw [hexp, ← zpow_natCast, ← zpow_add₀ (by norm_num : (2:ℚ) ≠ 0)]
        congr 1
        push_cast
        ring
      rw [this]
      exact hhi
    have hnear := roundTiesToEven_near (q / ulp)
    -- an integer within 1/2 of a rational of absolute value below 2^53
    have hlt : |(roundTiesToEven (q / ulp) : ℚ)| < 2 ^ 53 + 1 := by
      have := abs_sub_abs_le_abs_sub (roundTiesToEven (q / ulp) : ℚ) (q / ulp)
      linarith
    have hint : |roundTiesToEven (q / ulp)| < 2 ^ 53 + 1 := by
      have : ((|roundTiesToEven (q / ulp)| : ℤ) : ℚ) < ((2 ^ 53 + 1 : ℤ) : ℚ) := by
        rw [Int.cast_abs]
        norm_num at hlt ⊢
        exact hlt
      exact_mod_cast this
    have : |roundTiesToEven (q / ulp)| ≤ 2 ^ 53 := by omega
    have : ((|roundTiesToEven (q / ulp)| : ℤ) : ℚ) ≤ ((2 ^ 53 : ℤ) : ℚ) := by exact_mod_cast this
    push_cast at this
    exact this

theorem roundTiesToEven_nonneg (q : ℚ) (h : 0 ≤ q) : 0 ≤ roundTiesToEven q := by
  have hf : 0 ≤ ⌊q⌋ := Int.floor_nonneg.mpr h
  unfold roundTiesToEven
  simp only
  split_ifs <;> omega

theorem roundToDouble_nonneg (q : ℚ) (h : 0 ≤ q) : 0 ≤ roundToDouble q := by
  unfold roundToDouble
  simp only
  have hulp : (0 : ℚ) < (2 : ℚ) ^ (binaryExponent q - 52) := zpow_pos (by norm_num) _
  have hq : 0 ≤ q / (2 : ℚ) ^ (binaryExponent q - 52) := div_nonneg h hulp.le
  have hr := roundTiesToEven_nonneg _ hq
  exact mul_nonneg (by exact_mod_cast hr) hulp.le

theorem jsMul_hundred_nonneg (z : ℚ) (h : 0 < z) : 0 ≤ jsMul z 100 :=
  roundToDouble_nonneg _ (by positivity)

theorem nearest_eq_round (x : ℚ) :
    (if x - ⌊x⌋ < 1 / 2 then ⌊x⌋ else ⌊x⌋ + 1) = round x := by
  rw [round_eq]
  symm
  split_ifs with h
  · rw [Int.floor_eq_iff]
    constructor
    · have := Int.floor_le x
      linarith
    · linarith
  · rw [Int.floor_eq_iff]
    push_neg at h
    constructor
    · push_cast
      linarith
    · have := Int.lt_floor_add_one x
      push_cast
      linarith

theorem toString_of_nonneg (n : ℤ) (h : 0 ≤ n) : toString n = Nat.repr n.toNat := by
  obtain ⟨m, rfl⟩ := Int.eq_ofNat_of_zero_le h
  rfl

theorem toFixed0_eq_round (x : ℚ) (h0 : 0 ≤ x) (h1 : x < 10 ^ 21) :
    toFixed0 x = toString (round x) := by
  have hr : 0 ≤ round x := by
    rw [round_eq]
    exact Int.floor_nonneg.mpr (by linarith)
  rw [toString_of_nonneg _ hr]
  unfold toFixed0 toFixed0NonNeg
  rw [if_neg (not_lt.mpr h0), if_neg (not_le.mpr h1)]
  simp only
  rw [nearest_eq_round]

theorem setTitle_title (z : ℚ) (w : World) :
    (after (setTitle z) w).title = toFixed0 (parseFloat (jsMul z 100)) ++ "%" := rfl

theorem setTitle_eq_round_product (z : ℚ) (hz : 0 < z) (hlt : jsMul z 100 < 10 ^ 21) :
    toFixed0 (parseFloat (jsMul z 100)) ++ "%" = toString (round (jsMul z 100)) ++ "%" := by
  unfold parseFloat
  rw [toFixed0_eq_round _ (jsMul_hundred_nonneg z hz) hlt]

/-- A positive rational up to 500 lies in a binade of exponent at most 8. -/
theorem binaryExponent_le_eight (q : ℚ) (h0 : 0 < q) (h : q ≤ 500) : binaryExponent q ≤ 8 := by
  obtain ⟨hlo, -⟩ := ilog2_spec q h0.ne.symm
  rw [abs_of_pos h0] at hlo
  have hlog : ilog2 q ≤ 8 := by
    by_contra hgt
    push_neg at hgt
    have h9 : (2 : ℚ) ^ (9 : ℤ) ≤ (2 : ℚ) ^ ilog2 q :=
      zpow_le_zpow_right₀ (by norm_num) (by omega)
    have : (2 : ℚ) ^ (9 : ℤ) = 512 := by norm_num
    linarith
  unfold binaryExponent
  exact max_le hlog (by norm_num)

/-- For a zoom factor up to 5 the script's product `Z * 100` is within
`2 ^ (-45)` of the exact product. -/
theorem jsMul_hundred_near (z : ℚ) (hz : 0 < z) (h5 : z ≤ 5) :
    |jsMul z 100 - z * 100| ≤ (2 : ℚ) ^ (-45 : ℤ) := by
  have h0 : 0 < z * 100 := by positivity
  have h500 : z * 100 ≤ 500 := by linarith
  have hexp := binaryExponent_le_eight (z * 100) h0 h500
  obtain ⟨-, hnear, -⟩ := roundToDouble_spec (z * 100)
  have hulp : (2 : ℚ) ^ (binaryExponent (z * 100) - 52) ≤ (2 : ℚ) ^ (-44 : ℤ) :=
    zpow_le_zpow_right₀ (by norm_num) (by omega)
  have e : (2 : ℚ) ^ (-44 : ℤ) / 2 = (2 : ℚ) ^ (-45 : ℤ) := by norm_num
  unfold jsMul
  calc |roundToDouble (z * 100) - z * 100|
      ≤ (2 : ℚ) ^ (binaryExponent (z * 100) - 52) / 2 := hnear
    _ ≤ (2 : ℚ) ^ (-44 : ℤ) / 2 :=
        (div_le_div_iff_of_pos_right (by norm_num : (0 : ℚ) < 2)).mpr hulp
    _ = (2 : ℚ) ^ (-45 : ℤ) := e

/-- For a zoom factor up to 5, the range browsers allow, the script's product
stays far below `10 ^ 21`, where `toFixed` changes its output format. -/
theorem jsMul_hundred_lt (z : ℚ) (hz : 0 < z) (h5 : z ≤ 5) : jsMul z 100 < 10 ^ 21 := by
  have hnear := jsMul_hundred_near z hz h5
  have hsmall : (2 : ℚ) ^ (-45 : ℤ) ≤ 1 := by norm_num
  have := (abs_le.mp hnear).2
  have h21 : (501 : ℚ) < 10 ^ 21 := by norm_num
  linarith

/-- Two rationals less than 1 apart round to integers at most 1 apart. -/
theorem round_sub_round_le_one (a b : ℚ) (h : |a - b| < 1) : |round a - round b| ≤ 1 := by
  rw [round_eq, round_eq]
  have ha1 := Int.floor_le (a + 1 / 2)
  have ha2 := Int.lt_floor_add_one (a + 1 / 2)
  have hb1 := Int.floor_le (b + 1 / 2)
  have hb2 := Int.lt_floor_add_one (b + 1 / 2)
  obtain ⟨hl, hr⟩ := abs_lt.mp h
  have h1 : ((⌊a + 1 / 2⌋ - ⌊b + 1 / 2⌋ : ℤ) : ℚ) < 2 := by
    push_cast
    linarith
  have h2 : ((-2 : ℤ) : ℚ) < ((⌊a + 1 / 2⌋ - ⌊b + 1 / 2⌋ : ℤ) : ℚ) := by
    push_cast
    linarith
  have h1i : ⌊a + 1 / 2⌋ - ⌊b + 1 / 2⌋ < 2 := by exact_mod_cast h1
  have h2i : -2 < ⌊a + 1 / 2⌋ - ⌊b + 1 / 2⌋ := by exact_mod_cast h2
  rw [abs_le]
  constructor <;> omega

/-! ## Facts about single handlers -/

theorem setZoom_storage (urlHostname : String → String) (w : World) :
    (after (setZoom urlHostname) w).storage = w.storage := by
  cases h : w.storage (urlHostname w.activeTab.url) with
  | none => rw [setZoom_run_none urlHostname w h]; rfl
  | some z =>
    by_cases hz : z = 0
    · subst hz
      rw [setZoom_run_zero urlHostname w h]; rfl
    · rw [setZoom_run_some urlHostname w z h hz]

theorem setZoom_previousURL (urlHostname : String → String) (w : World) :
    (after (setZoom urlHostname) w).previousURL = w.previousURL := by
  cases h : w.storage (urlHostname w.activeTab.url) with
  | none => rw [setZoom_run_none urlHostname w h]; rfl
  | some z =>
    by_cases hz : z = 0
    · subst hz
      rw [setZoom_run_zero urlHostname w h]; rfl
    · rw [setZoom_run_some urlHostname w z h hz]

theorem windowOnload_storage (urlHostname : String → String) (w : World) :
    (after (windowOnload urlHostname) w).storage = w.storage := by
  cases h : w.storage (urlHostname w.activeTab.url) with
  | none => rw [windowOnload_run_none urlHostname w h]
  | some z => rw [windowOnload_run_some urlHostname w z h]

theorem windowOnload_previousURL (urlHostname : String → String) (w : World) :
    (after (windowOnload urlHostname) w).previousURL = w.previousURL := by
  cases h : w.storage (urlHostname w.activeTab.url) with
  | none => rw [windowOnload_run_none urlHostname w h]
  | some z => rw [windowOnload_run_some urlHostname w z h]

theorem tabsOnUpdated_run_empty (urlHostname : String → String) (tabId : ℕ) (w : World) :
    after (tabsOnUpdated urlHostname tabId ⟨some ""⟩) w = w := rfl

/-- From a `previousURL` that is `null` or `undefined`, the listener makes no
browser call and changes nothing but `previousURL`, which it leaves `null` or
sets to `undefined`. -/
theorem tabsOnUpdated_of_nullish (urlHostname : String → String) (tabId : ℕ)
    (changeInfo : ChangeInfo) (w : World)
    (h : w.previousURL = .null ∨ w.previousURL = .undefined) :
    after (tabsOnUpdated urlHostname tabId changeInfo) w = w ∨
      after (tabsOnUpdated urlHostname tabId changeInfo) w =
        { w with previousURL := .undefined } := by
  obtain ⟨url⟩ := changeInfo
  cases url with
  | none => exact Or.inl rfl
  | some url =>
    by_cases hurl : url = ""
    · subst hurl
      exact Or.inl rfl
    · right
      rw [tabsOnUpdated_run_present urlHostname tabId url w hurl]
      rcases h with h | h <;> simp [h, nullish, stringHostname]

/-- Once `previousURL` holds a string, no event changes it. -/
theorem tabsOnUpdated_keeps_string (urlHostname : String → String) (tabId : ℕ)
    (changeInfo : ChangeInfo) (w : World) (p : String) (h : w.previousURL = .string p) :
    (after (tabsOnUpdated urlHostname tabId changeInfo) w).previousURL = .string p := by
  obtain ⟨url⟩ := changeInfo
  cases url with
  | none => exact h
  | some url =>
    by_cases hurl : url = ""
    · subst hurl
      exact h
    · rw [tabsOnUpdated_run_present urlHostname tabId url w hurl]
      simp [h, nullish, stringHostname, setZoom_previousURL]

theorem tabsOnUpdated_storage (urlHostname : String → String) (tabId : ℕ)
    (changeInfo : ChangeInfo) (w : World) :
    (after (tabsOnUpdated urlHostname tabId changeInfo) w).storage = w.storage := by
  obtain ⟨url⟩ := changeInfo
  cases url with
  | none => rfl
  | some url =>
    by_cases hurl : url = ""
    · subst hurl
      rfl
    · rw [tabsOnUpdated_run_present urlHostname tabId url w hurl]
      split_ifs
      · rw [setZoom_storage]
      · rfl

theorem handle_previousURL_nullish (urlHostname : String → String) (e : Event) (w : World)
    (h : w.previousURL = .null ∨ w.previousURL = .undefined) :
    (handle urlHostname e w).previousURL = .null ∨
      (handle urlHostname e w).previousURL = .undefined := by
  cases e with
  | loaded =>
    simp only [handle]
    rw [windowOnload_previousURL]
    exact h
  | saveClicked =>
    simp only [handle, saveButtonOnclick]
    rw [saveNewZoom_run]
    exact h
  | tabUpdated tabId changeInfo =>
    simp only [handle]
    rcases tabsOnUpdated_of_nullish urlHostname tabId changeInfo w h with h2 | h2
    · rw [h2]; exact h
    · rw [h2]; exact Or.inr rfl
  | browserChanged activeTab zoomOf => exact h

theorem handleAll_previousURL_nullish (urlHostname : String → String) (es : List Event)
    (w : World) (h : w.previousURL = .null ∨ w.previousURL = .undefined) :
    (handleAll urlHostname es w).previousURL = .null ∨
      (handleAll urlHostname es w).previousURL = .undefined := by
  induction es generalizing w with
  | nil => exact h
  | cons e es ih =>
    exact ih (handle urlHostname e w) (handle_previousURL_nullish urlHostname e w h)

theorem handle_storedHostnames (urlHostname : String → String) (e : Event) (w : World) :
    storedHostnames w ⊆ storedHostnames (handle urlHostname e w) := by
  intro k hk
  cases e with
  | loaded =>
    simp only [handle, storedHostnames, Set.mem_setOf_eq, windowOnload_storage] at hk ⊢
    exact hk
  | saveClicked =>
    simp only [handle, saveButtonOnclick, storedHostnames, Set.mem_setOf_eq,
      saveNewZoom_run] at hk ⊢
    split_ifs
    · rfl
    · exact hk
  | tabUpdated tabId changeInfo =>
    simp only [handle, storedHostnames, Set.mem_setOf_eq, tabsOnUpdated_storage] at hk ⊢
    exact hk
  | browserChanged activeTab zoomOf => exact hk

theorem handleAll_storedHostnames (urlHostname : String → String) (es : List Event)
    (w : World) : storedHostnames w ⊆ storedHostnames (handleAll urlHostname es w) := by
  induction es generalizing w with
  | nil => exact subset_refl _
  | cons e es ih =>
    exact (handle_storedHostnames urlHostname e w).trans (ih (handle urlHostname e w))

/-! ## The claims -/

/-- C1, evaluated on the code at a failing input.  The popup is open on tab 7,
zoom 1.5 is stored for `b.example`, and the listener receives a URL change of
tab 7 to `https://a.example/` and then one to `https://b.example/page`
(hostnames `a.example` and `b.example`, tab 7 active at `b.example`).  The
second event makes no browser call: `tabs.setZoom` is not called, the zoom of
tab 7 stays 1 and the title stays `100%` instead of becoming `150%`.  A direct
call of `setZoom()` in the same world does call `tabs.setZoom(7, 1.5)` and sets
the title to `150%`: what fails is the listener's reading of the hostname. -/
theorem C1_host_change_applies_nothing :
    sampleHostname "https://a.example/" ≠ sampleHostname "https://b.example/page" ∧
    sampleWorld.storage (sampleHostname "https://b.example/page") = some (3 / 2) ∧
    sampleWorld.activeTab = ⟨7, "https://b.example/page"⟩ ∧
    (let w1 := handle sampleHostname (.tabUpdated 7 ⟨some "https://a.example/"⟩) sampleWorld
     let w2 := handle sampleHostname (.tabUpdated 7 ⟨some "https://b.example/page"⟩) w1
     w2.calls = w1.calls ∧ ApiCall.tabsSetZoom 7 (3 / 2) ∉ w2.calls ∧
       w2.zoomOf 7 = 1 ∧ w2.title = "100%" ∧ specTitle (3 / 2) = "150%") ∧
    (let w3 := after (setZoom sampleHostname) sampleWorld
     ApiCall.tabsSetZoom 7 (3 / 2) ∈ w3.calls ∧ w3.zoomOf 7 = 3 / 2 ∧ w3.title = "150%") := by
  decide!

/-- C2: in every run from startup (`previousURL = null`), whatever events came
before, a URL-change event whose hostname equals the hostname of the URL-change
event just before it makes no browser call at all (so no storage lookup and no
`tabs.setZoom`) and leaves zoom, storage and title as they were.  The proof does
not use the equality of the two hostnames: in such a run `previousURL` is never
a string, and the listener then stops before `setZoom()` on every event. -/
theorem C2_same_host_event_is_silent (urlHostname : String → String) (w0 : World)
    (events : List Event) (tabId1 tabId2 : ℕ) (url1 url2 : String)
    (hstart : w0.previousURL = .null)
    (_hsame : urlHostname url1 = urlHostname url2) :
    let w1 := handleAll urlHostname (events ++ [.tabUpdated tabId1 ⟨some url1⟩]) w0
    let w2 := handle urlHostname (.tabUpdated tabId2 ⟨some url2⟩) w1
    w2.calls = w1.calls ∧ w2.zoomOf = w1.zoomOf ∧ w2.storage = w1.storage ∧
      w2.title = w1.title := by
  intro w1 w2
  have h1 : w1.previousURL = .null ∨ w1.previousURL = .undefined :=
    handleAll_previousURL_nullish urlHostname _ w0 (Or.inl hstart)
  have h2 := tabsOnUpdated_of_nullish urlHostname tabId2 ⟨some url2⟩ w1 h1
  have hw2 : w2 = after (tabsOnUpdated urlHostname tabId2 ⟨some url2⟩) w1 := rfl
  rcases h2 with h2 | h2 <;> rw [hw2, h2] <;> exact ⟨rfl, rfl, rfl, rfl⟩

/-- C2 at a concrete run: `a.example`, then `b.example`, then `b.example` again
with another path. -/
theorem C2_same_host_event_is_silent_witness :
    sampleWorld.previousURL = .null ∧
    sampleHostname "https://b.example/page" = sampleHostname "https://b.example/other" ∧
    (let w1 := handleAll sampleHostname
        ([.tabUpdated 7 ⟨some "https://a.example/"⟩] ++
          [.tabUpdated 7 ⟨some "https://b.example/page"⟩]) sampleWorld
     let w2 := handle sampleHostname (.tabUpdated 7 ⟨some "https://b.example/other"⟩) w1
     w2.calls = w1.calls ∧ w2.zoomOf = w1.zoomOf ∧ w2.storage = w1.storage ∧
       w2.title = w1.title) :=
  ⟨rfl, by decide,
    C2_same_host_event_is_silent sampleHostname sampleWorld
      [.tabUpdated 7 ⟨some "https://a.example/"⟩] 7 7 "https://b.example/page"
      "https://b.example/other" rfl (by decide)⟩

/-- C3, what the code does on the first event: starting from
`previousURL = null`, a URL-change event makes no browser call and leaves zoom,
storage, title and tag alone, as the claim says; but what it records in
`previousURL` is `undefined`, not the hostname of the event's URL. -/
theorem C3_first_event_records_undefined (urlHostname : String → String) (w : World)
    (tabId : ℕ) (url : String) (hstart : w.previousURL = .null) (hurl : url ≠ "") :
    let w1 := handle urlHostname (.tabUpdated tabId ⟨some url⟩) w
    w1.calls = w.calls ∧ w1.zoomOf = w.zoomOf ∧ w1.storage = w.storage ∧
      w1.title = w.title ∧ w1.tag = w.tag ∧
      w1.previousURL = .undefined ∧ w1.previousURL ≠ .string (urlHostname url) := by
  intro w1
  have hw1 : w1 = { w with previousURL := .undefined } := by
    show after (tabsOnUpdated urlHostname tabId ⟨some url⟩) w = _
    rw [tabsOnUpdated_run_present urlHostname tabId url w hurl]
    simp [hstart, nullish, stringHostname]
  rw [hw1]
  exact ⟨rfl, rfl, rfl, rfl, rfl, rfl, by simp⟩

/-- C3 at the first event of the sample popup, a URL change to `https://a.example/`. -/
theorem C3_first_event_records_undefined_witness :
    sampleWorld.previousURL = .null ∧ "https://a.example/" ≠ "" ∧
    (let w1 := handle sampleHostname (.tabUpdated 7 ⟨some "https://a.example/"⟩) sampleWorld
     w1.calls = sampleWorld.calls ∧ w1.zoomOf = sampleWorld.zoomOf ∧
       w1.storage = sampleWorld.storage ∧ w1.title = sampleWorld.title ∧
       w1.tag = sampleWorld.tag ∧ w1.previousURL = .undefined ∧
       w1.previousURL ≠ .string (sampleHostname "https://a.example/")) :=
  ⟨rfl, by decide,
    C3_first_event_records_undefined sampleHostname sampleWorld 7 "https://a.example/" rfl
      (by decide)⟩

/-- C4: when storage has no entry for the active tab's hostname, `setZoom()`
asks for the active tab, reads storage once and stops: `tabs.setZoom` is not
called for any tab or factor, no tab's zoom changes and the title is untouched.
The same holds when the listener reaches `setZoom()` (a `previousURL` that
holds a string, a present and non-empty URL). -/
theorem C4_store_miss_leaves_zoom (urlHostname : String → String) (w : World)
    (hmiss : w.storage (urlHostname w.activeTab.url) = none) :
    let w1 := after (setZoom urlHostname) w
    (w1.calls = w.calls ++
        [.tabsQuery, .tabsQuery, .storageGet (urlHostname w.activeTab.url)] ∧
      (∀ id z, ApiCall.tabsSetZoom id z ∉ w1.calls.drop w.calls.length) ∧
      w1.zoomOf = w.zoomOf ∧ w1.title = w.title) ∧
    ∀ (tabId : ℕ) (url p : String), url ≠ "" → w.previousURL = .string p →
      after (tabsOnUpdated urlHostname tabId ⟨some url⟩) w = w1 := by
  intro w1
  have hw1 : w1 = w.logged
      [.tabsQuery, .tabsQuery, .storageGet (urlHostname w.activeTab.url)] :=
    setZoom_run_none urlHostname w hmiss
  refine ⟨?_, ?_⟩
  · rw [hw1]
    refine ⟨rfl, ?_, rfl, rfl⟩
    intro id z
    simp [World.logged]
  · intro tabId url p hurl hp
    rw [tabsOnUpdated_run_present urlHostname tabId url w hurl]
    simp only [hp, nullish, stringHostname]
    rw [if_pos (by simp)]
    have : ({ w with previousURL := JSValue.string p } : World) = w := by
      rw [← hp]
    rw [this]

/-- C4 on the popup at `c.example`, for which nothing is stored. -/
theorem C4_store_miss_leaves_zoom_witness :
    missWorld.storage (sampleHostname missWorld.activeTab.url) = none ∧
    (let w1 := after (setZoom sampleHostname) missWorld
     (w1.calls = missWorld.calls ++
         [.tabsQuery, .tabsQuery, .storageGet (sampleHostname missWorld.activeTab.url)] ∧
       (∀ id z, ApiCall.tabsSetZoom id z ∉ w1.calls.drop missWorld.calls.length) ∧
       w1.zoomOf = missWorld.zoomOf ∧ w1.title = missWorld.title) ∧
     ∀ (tabId : ℕ) (url p : String), url ≠ "" → missWorld.previousURL = .string p →
       after (tabsOnUpdated sampleHostname tabId ⟨some url⟩) missWorld = w1) :=
  ⟨by decide, C4_store_miss_leaves_zoom sampleHostname missWorld (by decide)⟩

/-- C5: after `window.onload` the tag reads "This urls current default zoom"
exactly when storage holds, under the active tab's hostname, a value equal to
the active tab's zoom; in every other case (no entry, or an entry with any other
value) it reads "Mark as this urls new default". -/
theorem C5_tag_on_open (urlHostname : String → String) (w : World) :
    let w1 := after (windowOnload urlHostname) w
    (w1.tag = "This urls current default zoom" ↔
      w.storage (urlHostname w.activeTab.url) = some (w.zoomOf w.activeTab.id)) ∧
    (w1.tag = "Mark as this urls new default" ↔
      w.storage (urlHostname w.activeTab.url) ≠ some (w.zoomOf w.activeTab.id)) := by
  intro w1
  cases h : w.storage (urlHostname w.activeTab.url) with
  | none =>
    have hw1 : w1 = _ := windowOnload_run_none urlHostname w h
    rw [hw1]
    simp
  | some z =>
    have hw1 : w1 = _ := windowOnload_run_some urlHostname w z h
    rw [hw1]
    by_cases hz : z = w.zoomOf w.activeTab.id <;> simp [hz]

/-- C6: `saveNewZoom()` reads the active tab's zoom at the time of the click
(one `tabs.getZoom` call; the title shown in the popup is not consulted),
writes it under the active tab's hostname, replacing what was stored there,
leaves the entry of every other hostname as it was, and closes the popup. -/
theorem C6_save_writes_fresh_zoom (urlHostname : String → String) (w : World) :
    let w1 := after (saveNewZoom urlHostname) w
    w1.storage (urlHostname w.activeTab.url) = some (w.zoomOf w.activeTab.id) ∧
    (∀ k, k ≠ urlHostname w.activeTab.url → w1.storage k = w.storage k) ∧
    w1.calls = w.calls ++ [.tabsQuery, .tabsGetZoom w.activeTab.id, .tabsQuery,
      .storageSet (urlHostname w.activeTab.url) (w.zoomOf w.activeTab.id), .windowClose] ∧
    w1.windowClosed = true := by
  intro w1
  have hw1 : w1 = _ := saveNewZoom_run urlHostname w
  rw [hw1]
  refine ⟨by simp, ?_, rfl, rfl⟩
  intro k hk
  simp [hk]

/-- C7 as stated fails at a zoom factor from the range browsers allow.  Let `Z`
be the binary64 value nearest 0.305, `5494391545392005 / 2 ^ 54`.  The exact
product `Z * 100` is below 30.5, so `round(Z * 100)` is 30; the script's
binary64 product is 30.5, and the title is `31%`, not `30%`. -/
theorem C7_title_differs_from_round_at_0305 :
    roundToDouble (305 / 1000) = 5494391545392005 / 2 ^ 54 ∧
    (3 / 10 : ℚ) < roundToDouble (305 / 1000) ∧ roundToDouble (305 / 1000) ≤ 5 ∧
    roundToDouble (305 / 1000) * 100 < 61 / 2 ∧
    round (roundToDouble (305 / 1000) * 100) = 30 ∧
    specTitle (roundToDouble (305 / 1000)) = "30%" ∧
    jsMul (roundToDouble (305 / 1000)) 100 = 61 / 2 ∧
    (after (setTitle (roundToDouble (305 / 1000))) sampleWorld).title = "31%" ∧
    (after (setTitle (roundToDouble (305 / 1000))) sampleWorld).title ≠
      specTitle (roundToDouble (305 / 1000)) := by
  decide!

/-- C7, amended: for every zoom factor `Z > 0` whose product with 100, as the
script computes it in binary64, is below `10 ^ 21`, `setTitle(Z)` sets the
title to the decimal integer nearest to that binary64 product (`round` of
`jsMul Z 100`, a half going up), followed by a percent sign; so does
`window.onload` for the active tab's zoom `Z`, and so does `setZoom()` when it
applies a stored zoom `Z`.  When the binary64 product is the exact product the
title is the specification's `round(Z * 100)` followed by a percent sign, and
for `Z` up to 5 the integer shown is at most 1 away from `round(Z * 100)`. -/
theorem C7_title_is_rounded_binary64_product (urlHostname : String → String) (z : ℚ)
    (w : World) (hz : 0 < z) (hlt : jsMul z 100 < 10 ^ 21) :
    (after (setTitle z) w).title = toString (round (jsMul z 100)) ++ "%" ∧
    (w.zoomOf w.activeTab.id = z →
      (after (windowOnload urlHostname) w).title = toString (round (jsMul z 100)) ++ "%") ∧
    (w.storage (urlHostname w.activeTab.url) = some z →
      (after (setZoom urlHostname) w).title = toString (round (jsMul z 100)) ++ "%") ∧
    (jsMul z 100 = z * 100 → (after (setTitle z) w).title = specTitle z) ∧
    (z ≤ 5 → |round (jsMul z 100) - round (z * 100)| ≤ 1) := by
  have hshown := setTitle_eq_round_product z hz hlt
  refine ⟨hshown, ?_, ?_, ?_, ?_⟩
  · intro hzoom
    cases h : w.storage (urlHostname w.activeTab.url) with
    | none => rw [windowOnload_run_none urlHostname w h, hzoom]; exact hshown
    | some s => rw [windowOnload_run_some urlHostname w s h, hzoom]; exact hshown
  · intro h
    rw [setZoom_run_some urlHostname w z h hz.ne.symm]
    exact hshown
  · intro hexact
    show toFixed0 (parseFloat (jsMul z 100)) ++ "%" = specTitle z
    rw [hshown, hexact]
    rfl
  · intro h5
    apply round_sub_round_le_one
    have hnear := jsMul_hundred_near z hz h5
    have hsmall : (2 : ℚ) ^ (-45 : ℤ) < 1 := by norm_num
    linarith

/-- C7 (amended) at `Z = 1.5`, on the sample popup with the tab at zoom 1.5 and
1.5 stored for its hostname: the product 150 is exact, and the title is `150%`
after `setTitle`, after `window.onload` and after `setZoom()`. -/
theorem C7_title_is_rounded_binary64_product_witness :
    (0 : ℚ) < 3 / 2 ∧ jsMul (3 / 2) 100 < 10 ^ 21 ∧
    toString (round (jsMul (3 / 2) 100)) ++ "%" = "150%" ∧
    (after (setTitle (3 / 2)) zoomedWorld).title = toString (round (jsMul (3 / 2) 100)) ++ "%" ∧
    (after (windowOnload sampleHostname) zoomedWorld).title =
      toString (round (jsMul (3 / 2) 100)) ++ "%" ∧
    (after (setZoom sampleHostname) zoomedWorld).title =
      toString (round (jsMul (3 / 2) 100)) ++ "%" ∧
    (after (setTitle (3 / 2)) zoomedWorld).title = specTitle (3 / 2) ∧
    |round (jsMul (3 / 2) 100) - round ((3 / 2 : ℚ) * 100)| ≤ 1 :=
  ⟨by decide!, by decide!, by decide!,
    (C7_title_is_rounded_binary64_product sampleHostname (3 / 2) zoomedWorld
      (by decide!) (by decide!)).1,
    (C7_title_is_rounded_binary64_product sampleHostname (3 / 2) zoomedWorld
      (by decide!) (by decide!)).2.1 rfl,
    (C7_title_is_rounded_binary64_product sampleHostname (3 / 2) zoomedWorld
      (by decide!) (by decide!)).2.2.1 rfl,
    (C7_title_is_rounded_binary64_product sampleHostname (3 / 2) zoomedWorld
      (by decide!) (by decide!)).2.2.2.1 (by decide!),
    (C7_title_is_rounded_binary64_product sampleHostname (3 / 2) zoomedWorld
      (by decide!) (by decide!)).2.2.2.2 (by decide!)⟩

/-- Why the product is bounded in C7: from `10 ^ 21` on, `toFixed(0)` answers
with `Number::toString`, so a product of `10 ^ 21` is shown as `1e+21%`.  No
zoom factor up to 5 has such a product (`jsMul_hundred_lt`). -/
theorem setTitle_exponential_from_1e21 :
    jsMul (10 ^ 19) 100 = 10 ^ 21 ∧
    (after (setTitle (10 ^ 19)) sampleWorld).title = "1e+21%" := by
  decide!

/-- The rounding model on familiar values: the binary64 value nearest 0.1,
`0.1 * 3 = 0.30000000000000004`, `1.005 * 100 = 100.49999999999999`, and
`2 ^ 70` printed as `1.1805916207174113e+21`. -/
theorem jsMul_examples :
    roundToDouble (1 / 10) = 3602879701896397 / 2 ^ 55 ∧
    jsMul (roundToDouble (1 / 10)) 3 = roundToDouble (30000000000000004 / 10 ^ 17) ∧
    jsMul (roundToDouble (1 / 10)) 3 ≠ roundToDouble (3 / 10) ∧
    jsMul (roundToDouble (1005 / 1000)) 100 = roundToDouble (10049999999999999 / 10 ^ 14) ∧
    numberToStringLarge (2 ^ 70) = "1.1805916207174113e+21" := by
  decide!

/-- The examples of C7: the binary64 value nearest 1.33 gives `133%` and 0.5
gives `50%`, in both cases what the specification's `round(Z * 100)` gives. -/
theorem setTitle_examples :
    (after (setTitle (roundToDouble (133 / 100))) sampleWorld).title = "133%" ∧
    specTitle (roundToDouble (133 / 100)) = "133%" ∧
    (after (setTitle (1 / 2)) sampleWorld).title = "50%" ∧
    specTitle (1 / 2) = "50%" := by
  decide!

/-- C8: `window.onload`, the `tabs.onUpdated` listener, `setZoom()` and
`getZoomLevelForCurrentURL()` leave storage exactly as they found it;
`saveNewZoom()` removes no key; and over any sequence of events the set of
stored hostnames only grows. -/
theorem C8_storage_never_shrinks (urlHostname : String → String) (w : World) :
    (after (windowOnload urlHostname) w).storage = w.storage ∧
    (∀ tabId changeInfo,
      (after (tabsOnUpdated urlHostname tabId changeInfo) w).storage = w.storage) ∧
    (after (setZoom urlHostname) w).storage = w.storage ∧
    (after (getZoomLevelForCurrentURL urlHostname) w).storage = w.storage ∧
    storedHostnames w ⊆ storedHostnames (after (saveNewZoom urlHostname) w) ∧
    ∀ events, storedHostnames w ⊆ storedHostnames (handleAll urlHostname events w) := by
  refine ⟨windowOnload_storage urlHostname w, fun tabId changeInfo =>
    tabsOnUpdated_storage urlHostname tabId changeInfo w, setZoom_storage urlHostname w, ?_,
    handle_storedHostnames urlHostname .saveClicked w,
    fun events => handleAll_storedHostnames urlHostname events w⟩
  cases h : w.storage (urlHostname w.activeTab.url) with
  | none =>
    show ((getZoomLevelForCurrentURL urlHostname).run w).2.storage = _
    rw [getZoomLevelForCurrentURL_run_none urlHostname w h]; rfl
  | some z =>
    show ((getZoomLevelForCurrentURL urlHostname).run w).2.storage = _
    rw [getZoomLevelForCurrentURL_run_some urlHostname w z h]; rfl

/-- C9, evaluated on the code.  From startup, after a URL change to
`a.example` and then one to `b.example`, `previousURL` is `undefined`, not
`b.example`.  And a popup that remembers `a.example` still remembers
`a.example` after it has processed a URL change to `b.example`, although it
went on to `setZoom()` because the two differ: the one assignment to
`previousURL` keeps any value that is not `null` or `undefined`. -/
theorem C9_previousURL_does_not_follow :
    (handleAll sampleHostname
      [.tabUpdated 7 ⟨some "https://a.example/"⟩,
        .tabUpdated 7 ⟨some "https://b.example/page"⟩] sampleWorld).previousURL
      = .undefined ∧
    (let w1 := handle sampleHostname (.tabUpdated 7 ⟨some "https://b.example/page"⟩)
        rememberingWorld
     rememberingWorld.previousURL ≠ .string (sampleHostname "https://b.example/page") ∧
     ApiCall.tabsSetZoom 7 (3 / 2) ∈ w1.calls ∧
     w1.previousURL = .string "a.example" ∧
     w1.previousURL ≠ .string (sampleHostname "https://b.example/page")) := by
  decide!

/-- C10: after `saveNewZoom()`, in any later world with the same storage in
which the active tab still has the hostname and the zoom it had at the click,
`getZoomLevelForCurrentURL()` returns that zoom (not `null`) and `window.onload`
sets the tag to "This urls current default zoom". -/
theorem C10_save_then_read (urlHostname : String → String) (w w2 : World)
    (hstore : w2.storage = (after (saveNewZoom urlHostname) w).storage)
    (hhost : urlHostname w2.activeTab.url = urlHostname w.activeTab.url)
    (hzoom : w2.zoomOf w2.activeTab.id = w.zoomOf w.activeTab.id) :
    resultOf (getZoomLevelForCurrentURL urlHostname) w2 = some (w.zoomOf w.activeTab.id) ∧
    (after (windowOnload urlHostname) w2).tag = "This urls current default zoom" := by
  have h : w2.storage (urlHostname w2.activeTab.url) = some (w.zoomOf w.activeTab.id) := by
    rw [hstore, saveNewZoom_run, hhost]
    simp
  constructor
  · show ((getZoomLevelForCurrentURL urlHostname).run w2).1 = _
    rw [getZoomLevelForCurrentURL_run_some urlHostname w2 _ h]
  · rw [windowOnload_run_some urlHostname w2 _ h]
    simp [hzoom]

/-- C10 on the sample popup: save, then read in the world the save left. -/
theorem C10_save_then_read_witness :
    resultOf (getZoomLevelForCurrentURL sampleHostname)
        (after (saveNewZoom sampleHostname) sampleWorld) = some 1 ∧
    (after (windowOnload sampleHostname)
        (after (saveNewZoom sampleHostname) sampleWorld)).tag =
      "This urls current default zoom" :=
  C10_save_then_read sampleHostname sampleWorld (after (saveNewZoom sampleHostname) sampleWorld)
    rfl rfl rfl

end ZoomSetter
